import Mathlib

set_option maxRecDepth 4000

/-!
Verification development for the ESP32-CAM Gemini integration library.

The definitions below are shallow embeddings of the C sources:
  * `utils/esp_cam_base64.c`  (one-shot and streaming base64 encoder,
    a single `uint8_t` of carried state),
  * `jpeg_encoder.c`          (one-shot encoder with `=` padding, and the
    chunked encoder `encode_base64_chunk` / `encode_base64_finalize`
    carrying a `base64_state_t`),
  * `utils/esp_cam_json.c`    (incremental JSON builder writing into a
    caller-supplied bounded buffer),
  * `utils/esp_cam_utils.c`   (`ESP_CAM_CaptureAndGetGeminiPayload`, the
    payload assembler),
  * `utils/gemini_client.c`   (`gemini_client_extract_text`).

Machine integers are modelled as `Nat` with explicit reductions
(`% 4294967296` for `uint32_t`, `% 256` for `uint8_t`) at the points where
the C performs a conversion.  Byte buffers are `List Char` / `List Nat`.
Fallible calls return an explicit error code next to the updated data, as
the C functions do.
-/

/-- The base64 alphabet shared by both encoder translation units. -/
def base64_chars : List Char :=
  "ABCDEFGHIJKLMNOPQRSTUVWXYZabcdefghijklmnopqrstuvwxyz0123456789+/".toList

/-- Table lookup `base64_chars[i]`; every index produced by the code is
masked with `0x3F`, so the default is never reached there. -/
def b64char (i : Nat) : Char := base64_chars.getD i '?'

/-! ## jpeg_encoder.c : chunked encoder with explicit finalize -/

/-- `base64_state_t` of `jpeg_encoder.h`: bit carry `buffer` (`uint32_t`),
bit count `buffer_size` (`uint8_t`) and `total_bytes` (documented as
"Total bytes processed (for padding)"). -/
structure Base64State where
  buffer : Nat
  buffer_size : Nat
  total_bytes : Nat
deriving DecidableEq, Repr

/-- A zero-initialized `base64_state_t`. -/
def zeroB64State : Base64State := ⟨0, 0, 0⟩

/-- `calculate_base64_length` of `jpeg_encoder.c`. -/
def calculate_base64_length (input_length : Nat) : Nat :=
  (input_length + 2) / 3 * 4 + 1

/-- Structural-recursion core of the inner
`while (buffer_size >= 6 && j < output_size)` loop of
`encode_base64_chunk`.  The fuel strictly bounds the iteration count
(each iteration removes 6 bits); it is passed as the bit count itself,
so the fuel-exhausted branch coincides with the loop guard failing. -/
def emitLoopF (buffer : Nat) : Nat → Nat → Nat → Nat → List Char × Nat × Nat
  | 0, bsize, j, _ => ([], bsize, j)
  | fuel + 1, bsize, j, osize =>
    if 6 ≤ bsize ∧ j < osize then
      let c := b64char ((buffer >>> (bsize - 6)) &&& 0x3F)
      let r := emitLoopF buffer fuel (bsize - 6) (j + 1) osize
      (c :: r.1, r.2.1, r.2.2)
    else
      ([], bsize, j)

/-- The inner emit loop of `encode_base64_chunk`: emits 6-bit groups from
the top of the bit buffer while output capacity remains.  Returns the
emitted characters, the remaining bit count and the new `j`. -/
def emitLoop (buffer bsize j osize : Nat) : List Char × Nat × Nat :=
  emitLoopF buffer bsize bsize j osize

/-- The byte loop of `encode_base64_chunk`: for each input byte, shift it
into the `uint32_t` bit buffer, add 8 to the `uint8_t` bit count, then run
the emit loop.  Returns (output, buffer, buffer_size, j). -/
def chunkLoop : List Nat → Nat → Nat → Nat → Nat → List Char × Nat × Nat × Nat
  | [], buffer, bsize, j, _ => ([], buffer, bsize, j)
  | byte :: rest, buffer, bsize, j, osize =>
    let buffer1 := ((buffer <<< 8) % 4294967296) ||| byte
    let bsize1 := (bsize + 8) % 256
    let e := emitLoop buffer1 bsize1 j osize
    let r := chunkLoop rest buffer1 e.2.1 e.2.2 osize
    (e.1 ++ r.1, r.2.1, r.2.2.1, r.2.2.2)

/-- `encode_base64_chunk` of `jpeg_encoder.c`.  An empty input returns 0
and leaves the state untouched (the C null/empty guard). -/
def encode_base64_chunk (input : List Nat) (output_size : Nat)
    (s : Base64State) : List Char × Base64State :=
  if input = [] then ([], s)
  else
    let r := chunkLoop input s.buffer s.buffer_size 0 output_size
    (r.1, ⟨r.2.1, r.2.2.1, s.total_bytes⟩)

/-- `encode_base64_finalize` of `jpeg_encoder.c`: emits the last partial
6-bit group if any bits remain, then `(3 - total_bytes % 3) % 3` pad
characters (bounded by the remaining capacity), then resets `buffer` and
`buffer_size`.  For reachable states `buffer_size < 6`; for larger values
the C shift `6 - buffer_size` is undefined and this model shifts by 0. -/
def encode_base64_finalize (output_size : Nat) (s : Base64State) :
    List Char × Base64State :=
  let dataChar : List Char :=
    if 0 < s.buffer_size ∧ 0 < output_size then
      [b64char (((s.buffer <<< (6 - s.buffer_size)) % 4294967296) &&& 0x3F)]
    else []
  let padding := (3 - s.total_bytes % 3) % 3
  let pads := List.replicate (min padding (output_size - dataChar.length)) '='
  (dataChar ++ pads, ⟨0, 0, s.total_bytes⟩)

/-- The `i += 3` group loop of the one-shot `encode_base64` of
`jpeg_encoder.c`, inserting `=` for the missing bytes of a final partial
group. -/
def encode_base64_groups : List Nat → List Char
  | [] => []
  | [a] =>
    let t := (a <<< 16) % 4294967296
    [b64char ((t >>> 18) &&& 0x3F), b64char ((t >>> 12) &&& 0x3F), '=', '=']
  | [a, b] =>
    let t := ((a <<< 16) ||| (b <<< 8)) % 4294967296
    [b64char ((t >>> 18) &&& 0x3F), b64char ((t >>> 12) &&& 0x3F),
     b64char ((t >>> 6) &&& 0x3F), '=']
  | a :: b :: c :: rest =>
    let t := ((a <<< 16) ||| (b <<< 8) ||| c) % 4294967296
    b64char ((t >>> 18) &&& 0x3F) :: b64char ((t >>> 12) &&& 0x3F) ::
    b64char ((t >>> 6) &&& 0x3F) :: b64char (t &&& 0x3F) ::
    encode_base64_groups rest

/-- `encode_base64` of `jpeg_encoder.c` (one-shot): returns 0 (modelled as
no output) on empty input or insufficient buffer, otherwise the padded
encoding. -/
def encode_base64 (input : List Nat) (output_size : Nat) : List Char :=
  if input = [] then []
  else if output_size < calculate_base64_length input.length then []
  else encode_base64_groups input

/-! ## esp_cam_base64.c : single-uint8-state streaming encoder -/

/-- `esp_cam_base64_encode_len` of `esp_cam_base64.c`. -/
def esp_cam_base64_encode_len (input_len : Nat) : Nat :=
  (input_len + 2) / 3 * 4 + 1

/-- The leftover-consuming loop at the top of
`esp_cam_base64_encode_stream`: pulls bytes into `bits` until the carried
`leftover` count reaches 0, then emits one 4-character group.
Returns (output, remaining input, leftover, bits). -/
def streamLeftover : Nat → List Nat → Nat → List Char × List Nat × Nat × Nat
  | 0, input, bits => ([], input, 0, bits)
  | l + 1, [], bits => ([], [], l + 1, bits)
  | l + 1, byte :: rest, bits =>
    let bits1 := ((bits <<< 8) % 4294967296) ||| byte
    if l = 0 then
      ([b64char ((bits1 >>> 18) &&& 0x3F), b64char ((bits1 >>> 12) &&& 0x3F),
        b64char ((bits1 >>> 6) &&& 0x3F), b64char (bits1 &&& 0x3F)],
       rest, 0, 0)
    else
      streamLeftover l rest bits1

/-- The `while (i + 3 <= input_len)` main loop of
`esp_cam_base64_encode_stream`. -/
def streamMain : List Nat → List Char × List Nat
  | a :: b :: c :: rest =>
    let t := (((a % 4294967296) <<< 16) ||| ((b % 4294967296) <<< 8) ||| c) % 4294967296
    let r := streamMain rest
    (b64char ((t >>> 18) &&& 0x3F) :: b64char ((t >>> 12) &&& 0x3F) ::
     b64char ((t >>> 6) &&& 0x3F) :: b64char (t &&& 0x3F) :: r.1, r.2)
  | other => ([], other)

/-- `esp_cam_base64_encode_stream` of `esp_cam_base64.c`.  The carried
state is a single `uint8_t`: low 2 bits a leftover count, upper bits a
(truncated) slice of the bit carry.  The tail emits the characters of a
final partial group immediately, without padding, and stores
`(leftover & 3) | ((bits & 0x3FFFF) << 2)` truncated to 8 bits.
There is no output-capacity parameter in the C; output is unbounded. -/
def esp_cam_base64_encode_stream (input : List Nat) (state : Nat) :
    List Char × Nat :=
  let leftover0 := state &&& 0x03
  let bits0 := (state >>> 2) &&& 0x3FFFF
  let p1 := streamLeftover leftover0 input bits0
  let p2 := streamMain p1.2.1
  let rem := p2.2
  let leftover := rem.length
  if 0 < leftover then
    let bits := rem.foldl (fun b byte => ((b <<< 8) % 4294967296) ||| byte) 0
    let bits := (bits <<< (8 * (3 - leftover))) % 4294967296
    let out3 :=
      [b64char ((bits >>> 18) &&& 0x3F)] ++
      (if 1 ≤ leftover then [b64char ((bits >>> 12) &&& 0x3F)] else []) ++
      (if leftover = 2 then [b64char ((bits >>> 6) &&& 0x3F)] else [])
    let state1 := ((leftover &&& 0x03) ||| ((bits &&& 0x3FFFF) <<< 2)) % 256
    (p1.1 ++ p2.1 ++ out3, state1)
  else
    (p1.1 ++ p2.1, 0)

/-- `esp_cam_base64_encode` of `esp_cam_base64.c`: one call to the stream
encoder with a zero `uint8_t` state. -/
def esp_cam_base64_encode (input : List Nat) : List Char :=
  (esp_cam_base64_encode_stream input 0).1

/-! ## esp_cam_json.c : incremental JSON builder -/

/-- The `esp_err_t` values returned by the JSON builder. -/
inductive EspErr
  | ok
  | noMem
  | invalidState
deriving DecidableEq, Repr

/-- `esp_cam_json_state_t` of `esp_cam_json.h`: nesting depth plus two
single flags for the current container kind, and the separator flag. -/
structure JsonState where
  depth : Nat
  in_object : Bool
  in_array : Bool
  needs_separator : Bool
deriving DecidableEq, Repr

/-- `esp_cam_json_init`. -/
def esp_cam_json_init : JsonState := ⟨0, false, false, false⟩

/-- A builder context: state plus the physical output buffer and the
length cursor.  The C `max_len` is the capacity `buf.length`. -/
structure JB where
  st : JsonState
  buf : List Char
  len : Nat
deriving DecidableEq, Repr

/-- C `strcpy(buf + pos, s)`: writes the characters of `s` starting at
`pos` and a null terminator after them. -/
def strcpyAt (buf : List Char) (pos : Nat) : List Char → List Char
  | [] => buf.set pos '\x00'
  | c :: cs => strcpyAt (buf.set pos c) (pos + 1) cs

/-- `write_to_buffer` of `esp_cam_json.c`: rejects with `ESP_ERR_NO_MEM`
when `len + strlen(s) >= max_len`, otherwise copies `s` (with its
terminator) and advances the cursor. -/
def write_to_buffer (buf : List Char) (len : Nat) (s : List Char) :
    EspErr × List Char × Nat :=
  if buf.length ≤ len + s.length then (.noMem, buf, len)
  else (.ok, strcpyAt buf len s, len + s.length)

/-- `esp_cam_json_start_object`. -/
def esp_cam_json_start_object (c : JB) : EspErr × JB :=
  let w1 := if c.st.needs_separator then write_to_buffer c.buf c.len [',']
            else (.ok, c.buf, c.len)
  match w1 with
  | (.ok, buf1, len1) =>
    match write_to_buffer buf1 len1 ['{'] with
    | (.ok, buf2, len2) =>
      (.ok, ⟨⟨c.st.depth + 1, true, false, false⟩, buf2, len2⟩)
    | (e, buf2, len2) => (e, ⟨c.st, buf2, len2⟩)
  | (e, buf1, len1) => (e, ⟨c.st, buf1, len1⟩)

/-- `esp_cam_json_end_object`: fails with a state error when the depth is
0 or the `in_object` flag is off; on success decrements the depth, and
only when the depth reaches 0 clears `in_object`. -/
def esp_cam_json_end_object (c : JB) : EspErr × JB :=
  if c.st.depth = 0 ∨ c.st.in_object = false then (.invalidState, c)
  else
    match write_to_buffer c.buf c.len ['}'] with
    | (.ok, buf1, len1) =>
      let d := c.st.depth - 1
      if 0 < d then
        (.ok, ⟨⟨d, c.st.in_object, c.st.in_array, true⟩, buf1, len1⟩)
      else
        (.ok, ⟨⟨d, false, c.st.in_array, false⟩, buf1, len1⟩)
    | (e, buf1, len1) => (e, ⟨c.st, buf1, len1⟩)

/-- `esp_cam_json_start_array`. -/
def esp_cam_json_start_array (c : JB) : EspErr × JB :=
  let w1 := if c.st.needs_separator then write_to_buffer c.buf c.len [',']
            else (.ok, c.buf, c.len)
  match w1 with
  | (.ok, buf1, len1) =>
    match write_to_buffer buf1 len1 ['['] with
    | (.ok, buf2, len2) =>
      (.ok, ⟨⟨c.st.depth + 1, false, true, false⟩, buf2, len2⟩)
    | (e, buf2, len2) => (e, ⟨c.st, buf2, len2⟩)
  | (e, buf1, len1) => (e, ⟨c.st, buf1, len1⟩)

/-- `esp_cam_json_end_array`: dual of `esp_cam_json_end_object`. -/
def esp_cam_json_end_array (c : JB) : EspErr × JB :=
  if c.st.depth = 0 ∨ c.st.in_array = false then (.invalidState, c)
  else
    match write_to_buffer c.buf c.len [']'] with
    | (.ok, buf1, len1) =>
      let d := c.st.depth - 1
      if 0 < d then
        (.ok, ⟨⟨d, c.st.in_object, c.st.in_array, true⟩, buf1, len1⟩)
      else
        (.ok, ⟨⟨d, c.st.in_object, false, false⟩, buf1, len1⟩)
    | (e, buf1, len1) => (e, ⟨c.st, buf1, len1⟩)

/-- `esp_cam_json_key`: rejected with a state error when `in_object` is
off; otherwise writes an optional separator, then `"`, the key, and
`":`, clearing the separator flag only when every write succeeded. -/
def esp_cam_json_key (c : JB) (key : List Char) : EspErr × JB :=
  if c.st.in_object = false then (.invalidState, c)
  else
    let w1 := if c.st.needs_separator then write_to_buffer c.buf c.len [',']
              else (.ok, c.buf, c.len)
    match w1 with
    | (.ok, buf1, len1) =>
      match write_to_buffer buf1 len1 ['"'] with
      | (.ok, buf2, len2) =>
        match write_to_buffer buf2 len2 key with
        | (.ok, buf3, len3) =>
          match write_to_buffer buf3 len3 ['"', ':'] with
          | (.ok, buf4, len4) =>
            (.ok, ⟨⟨c.st.depth, c.st.in_object, c.st.in_array, false⟩, buf4, len4⟩)
          | (e, buf4, len4) => (e, ⟨c.st, buf4, len4⟩)
        | (e, buf3, len3) => (e, ⟨c.st, buf3, len3⟩)
      | (e, buf2, len2) => (e, ⟨c.st, buf2, len2⟩)
    | (e, buf1, len1) => (e, ⟨c.st, buf1, len1⟩)

/-- Lower-case hex digit, as produced by `sprintf("\u%04x", c)` for the
control characters below 0x20. -/
def hexDigit (n : Nat) : Char := "0123456789abcdef".toList.getD n '0'

/-- The escaping loop of `esp_cam_json_string`.  `"` and `\` get a
two-character escape written by hand (with its own capacity check and
explicit terminator), the five short control escapes and the `\u00xx`
form go through `write_to_buffer`, every other character is copied with a
one-byte capacity check.  The C classifies by `c < 32` on `char`; the
claims only exercise 7-bit characters, for which `toNat < 32` agrees. -/
def esp_cam_json_string_loop (buf : List Char) (len : Nat) :
    List Char → EspErr × List Char × Nat
  | [] => (.ok, buf, len)
  | ch :: rest =>
    if ch = '"' ∨ ch = '\\' then
      if buf.length ≤ len + 2 then (.noMem, buf, len)
      else
        esp_cam_json_string_loop
          (((buf.set len '\\').set (len + 1) ch).set (len + 2) '\x00')
          (len + 2) rest
    else if ch.toNat < 32 then
      let esc : List Char :=
        if ch = '\x08' then ['\\', 'b']
        else if ch = '\x0c' then ['\\', 'f']
        else if ch = '\n' then ['\\', 'n']
        else if ch = '\r' then ['\\', 'r']
        else if ch = '\t' then ['\\', 't']
        else ['\\', 'u', '0', '0', hexDigit (ch.toNat / 16), hexDigit (ch.toNat % 16)]
      match write_to_buffer buf len esc with
      | (.ok, buf1, len1) => esp_cam_json_string_loop buf1 len1 rest
      | (e, buf1, len1) => (e, buf1, len1)
    else
      if buf.length ≤ len + 1 then (.noMem, buf, len)
      else
        esp_cam_json_string_loop ((buf.set len ch).set (len + 1) '\x00')
          (len + 1) rest

/-- `esp_cam_json_string`: optional separator, opening quote, escaped
characters, closing quote; sets the separator flag only on full success. -/
def esp_cam_json_string (c : JB) (value : List Char) : EspErr × JB :=
  let w1 := if c.st.needs_separator then write_to_buffer c.buf c.len [',']
            else (.ok, c.buf, c.len)
  match w1 with
  | (.ok, buf1, len1) =>
    match write_to_buffer buf1 len1 ['"'] with
    | (.ok, buf2, len2) =>
      match esp_cam_json_string_loop buf2 len2 value with
      | (.ok, buf3, len3) =>
        match write_to_buffer buf3 len3 ['"'] with
        | (.ok, buf4, len4) =>
          (.ok, ⟨⟨c.st.depth, c.st.in_object, c.st.in_array, true⟩, buf4, len4⟩)
        | (e, buf4, len4) => (e, ⟨c.st, buf4, len4⟩)
      | (e, buf3, len3) => (e, ⟨c.st, buf3, len3⟩)
    | (e, buf2, len2) => (e, ⟨c.st, buf2, len2⟩)
  | (e, buf1, len1) => (e, ⟨c.st, buf1, len1⟩)

/-- `esp_cam_json_number`: the literal is written verbatim. -/
def esp_cam_json_number (c : JB) (value : List Char) : EspErr × JB :=
  let w1 := if c.st.needs_separator then write_to_buffer c.buf c.len [',']
            else (.ok, c.buf, c.len)
  match w1 with
  | (.ok, buf1, len1) =>
    match write_to_buffer buf1 len1 value with
    | (.ok, buf2, len2) =>
      (.ok, ⟨⟨c.st.depth, c.st.in_object, c.st.in_array, true⟩, buf2, len2⟩)
    | (e, buf2, len2) => (e, ⟨c.st, buf2, len2⟩)
  | (e, buf1, len1) => (e, ⟨c.st, buf1, len1⟩)

/-- `esp_cam_json_bool`. -/
def esp_cam_json_bool (c : JB) (value : Bool) : EspErr × JB :=
  esp_cam_json_number c (if value then "true".toList else "false".toList)

/-- `esp_cam_json_null`. -/
def esp_cam_json_null (c : JB) : EspErr × JB :=
  esp_cam_json_number c "null".toList

/-- `esp_cam_json_key_string`. -/
def esp_cam_json_key_string (c : JB) (key value : List Char) : EspErr × JB :=
  match esp_cam_json_key c key with
  | (.ok, c1) => esp_cam_json_string c1 value
  | r => r

/-- `esp_cam_json_key_number`. -/
def esp_cam_json_key_number (c : JB) (key value : List Char) : EspErr × JB :=
  match esp_cam_json_key c key with
  | (.ok, c1) => esp_cam_json_number c1 value
  | r => r

/-- `esp_cam_json_key_bool`. -/
def esp_cam_json_key_bool (c : JB) (key : List Char) (value : Bool) : EspErr × JB :=
  match esp_cam_json_key c key with
  | (.ok, c1) => esp_cam_json_bool c1 value
  | r => r

/-- `esp_cam_json_key_null`. -/
def esp_cam_json_key_null (c : JB) (key : List Char) : EspErr × JB :=
  match esp_cam_json_key c key with
  | (.ok, c1) => esp_cam_json_null c1
  | r => r

/-! ## Container-operation driver and the claim-side stack model -/

/-- The four container operations of the builder. -/
inductive ContainerOp
  | openObj
  | closeObj
  | openArr
  | closeArr
deriving DecidableEq, Repr

/-- Dispatch one container operation to the corresponding builder call. -/
def runContainerOp : ContainerOp → JB → EspErr × JB
  | .openObj, c => esp_cam_json_start_object c
  | .closeObj, c => esp_cam_json_end_object c
  | .openArr, c => esp_cam_json_start_array c
  | .closeArr, c => esp_cam_json_end_array c

/-- Run a sequence of container operations, collecting each returned
error code in order. -/
def runContainerOps : List ContainerOp → JB → List EspErr × JB
  | [], c => ([], c)
  | op :: rest, c =>
    let r := runContainerOp op c
    let rr := runContainerOps rest r.2
    (r.1 :: rr.1, rr.2)

/-- Frame kinds of the specification data model (`container_stack`
entries). -/
inductive FrameKind
  | obj
  | arr
deriving DecidableEq, Repr

/-- One step of the container stack described by the specification: an
open pushes its kind, a close pops only a matching kind, anything else is
invalid.  This is the claim-side notion, not code of the repository. -/
def stackStep : Option (List FrameKind) → ContainerOp → Option (List FrameKind)
  | some st, .openObj => some (.obj :: st)
  | some st, .openArr => some (.arr :: st)
  | some (.obj :: st), .closeObj => some st
  | some (.arr :: st), .closeArr => some st
  | _, _ => none

/-- The container stack left by a sequence of operations, starting from
the empty stack (`none` once a close has failed to match). -/
def stackAfter (ops : List ContainerOp) : Option (List FrameKind) :=
  ops.foldl stackStep (some [])

/-- The claim-side notion of a balanced sequence: every close matches the
kind of the most recent unmatched open, and the final stack is empty. -/
def balancedOps (ops : List ContainerOp) : Bool :=
  stackAfter ops = some []

/-- A builder context with an all-zero 64-byte buffer, ample for the
short sequences below. -/
def jb64 : JB := ⟨esp_cam_json_init, List.replicate 64 '\x00', 0⟩

/-! ## esp_cam_utils.c : the payload assembler -/

/-- The builder-call trace of `ESP_CAM_CaptureAndGetGeminiPayload`
(esp_cam_utils.c lines 130-219), with the captured frame passed in as
`image` and the camera, allocation and transport layers external.  The C
ignores the return value of every `esp_cam_json_*` call; the first
component collects those ignored codes in call order.  The second
component is `none` exactly on the paths where the C frees the buffer and
returns `NULL` (the two manual quote capacity checks; the base64 call
itself always returns `ESP_OK` for non-null arguments).  The base64 data
is written with no capacity check, as in the C; the C then advances the
cursor by `strlen` of what was written, which is well defined when
`image.length % 3 = 0` (the encoder null-terminates only then). -/
def ESP_CAM_CaptureAndGetGeminiPayload_model (prompt : List Char)
    (image : List Nat) : List EspErr × Option (List Char) :=
  let base64_len := esp_cam_base64_encode_len image.length
  let json_size := base64_len + prompt.length + 200
  let c0 : JB := ⟨esp_cam_json_init, List.replicate json_size '\x00', 0⟩
  let r1 := esp_cam_json_start_object c0
  let r2 := esp_cam_json_key r1.2 "contents".toList
  let r3 := esp_cam_json_start_array r2.2
  let r4 := esp_cam_json_start_object r3.2
  let r5 := esp_cam_json_key r4.2 "parts".toList
  let r6 := esp_cam_json_start_array r5.2
  let r7 := esp_cam_json_start_object r6.2
  let r8 := esp_cam_json_key_string r7.2 "text".toList prompt
  let r9 := esp_cam_json_end_object r8.2
  let r10 := esp_cam_json_start_object r9.2
  let r11 := esp_cam_json_key r10.2 "inline_data".toList
  let r12 := esp_cam_json_start_object r11.2
  let r13 := esp_cam_json_key_string r12.2 "mime_type".toList "image/jpeg".toList
  let r14 := esp_cam_json_key r13.2 "data".toList
  let errsA := [r1.1, r2.1, r3.1, r4.1, r5.1, r6.1, r7.1, r8.1, r9.1,
                r10.1, r11.1, r12.1, r13.1, r14.1]
  let c := r14.2
  if json_size ≤ c.len + 1 then (errsA, none)
  else
    let c : JB := ⟨c.st, c.buf.set c.len '"', c.len + 1⟩
    let b64 := esp_cam_base64_encode image
    let c : JB := ⟨c.st, strcpyAt c.buf c.len b64, c.len + b64.length⟩
    if json_size ≤ c.len + 1 then (errsA, none)
    else
      let c : JB := ⟨c.st, (c.buf.set c.len '"').set (c.len + 1) '\x00', c.len + 1⟩
      let r15 := esp_cam_json_end_object c
      let r16 := esp_cam_json_end_object r15.2
      let r17 := esp_cam_json_end_array r16.2
      let r18 := esp_cam_json_end_object r17.2
      let r19 := esp_cam_json_end_array r18.2
      let r20 := esp_cam_json_key r19.2 "generationConfig".toList
      let r21 := esp_cam_json_start_object r20.2
      let r22 := esp_cam_json_key_number r21.2 "maxOutputTokens".toList "100".toList
      let r23 := esp_cam_json_end_object r22.2
      let r24 := esp_cam_json_end_object r23.2
      (errsA ++ [r15.1, r16.1, r17.1, r18.1, r19.1, r20.1, r21.1, r22.1,
                 r23.1, r24.1],
       some (r24.2.buf.take r24.2.len))

/-! ## gemini_client.c : response text extraction -/

/-- The marker searched for by `gemini_client_extract_text`: a space
follows the colon. -/
def text_marker : List Char := "\"text\": \"".toList

/-- C `strstr`: index of the first occurrence of `pat` in `hay`. -/
def strstr_idx : List Char → List Char → Option Nat
  | hay, pat =>
    if pat.isPrefixOf hay then some 0
    else
      match hay with
      | [] => none
      | _ :: t => (strstr_idx t pat).map (fun n => n + 1)

/-- The quote-scanning loop of `gemini_client_extract_text`: the number
of characters before the first unescaped `"`, or `none` if the input ends
first (including ending inside an escape). -/
def scanToQuote : List Char → Bool → Option Nat
  | [], _ => none
  | ch :: rest, esc =>
    if esc then (scanToQuote rest false).map (fun n => n + 1)
    else if ch = '\\' then (scanToQuote rest true).map (fun n => n + 1)
    else if ch = '"' then some 0
    else (scanToQuote rest false).map (fun n => n + 1)

/-- The copy-and-unescape loop of `gemini_client_extract_text`: the five
short escapes become control characters, any other escaped character is
passed through as the literal character after the backslash. -/
def unescapeSpan : List Char → Bool → List Char
  | [], _ => []
  | ch :: rest, true =>
    (match ch with
     | 'n' => '\n'
     | 'r' => '\r'
     | 't' => '\t'
     | 'b' => '\x08'
     | 'f' => '\x0c'
     | c => c) :: unescapeSpan rest false
  | ch :: rest, false =>
    if ch = '\\' then unescapeSpan rest true
    else ch :: unescapeSpan rest false

/-- `gemini_client_extract_text` of `gemini_client.c`.  `none` models the
`NULL` return, produced alike for an empty response, an absent marker and
an unterminated value (the C logs different messages in the latter two
cases but returns `NULL` in both). -/
def gemini_client_extract_text (response : List Char) : Option (List Char) :=
  if response = [] then none
  else
    match strstr_idx response text_marker with
    | none => none
    | some i =>
      let after := response.drop (i + text_marker.length)
      match scanToQuote after false with
      | none => none
      | some tlen => some (unescapeSpan (after.take tlen) false)

/-! ## Claim theorems: evaluations and counterexamples -/

/-- Claim C2 (code_bug evidence): feeding the single byte 0x01 through
`encode_base64_chunk` and then `encode_base64_finalize` from a
zero-initialized state emits the two data characters `AQ` and no pad
characters, because `encode_base64_chunk` never updates `total_bytes`;
the one-shot `encode_base64` of the same translation unit emits `AQ==`
as the claim describes. -/
theorem finalize_padding_missing_eval :
    (encode_base64_chunk [1] 16 zeroB64State).1
      ++ (encode_base64_finalize 16 (encode_base64_chunk [1] 16 zeroB64State).2).1
      = ['A', 'Q']
    ∧ (encode_base64_chunk [1] 16 zeroB64State).2.total_bytes = 0
    ∧ encode_base64 [1] 16 = ['A', 'Q', '=', '='] := by
  decide

/-- Claim C4 (code_bug evidence): the balanced sequence
open-object, open-array, close-array, close-object is rejected with a
state error at its final (matching) close, while the unbalanced sequence
open-object, open-array, close-array, close-array is accepted in full —
closing a nested container does not restore the single kind flag. -/
theorem balanced_sequence_rejected_eval :
    balancedOps [.openObj, .openArr, .closeArr, .closeObj] = true
    ∧ (runContainerOps [.openObj, .openArr, .closeArr, .closeObj] jb64).1
        = [.ok, .ok, .ok, .invalidState]
    ∧ balancedOps [.openObj, .openArr, .closeArr, .closeArr] = false
    ∧ (runContainerOps [.openObj, .openArr, .closeArr, .closeArr] jb64).1
        = [.ok, .ok, .ok, .ok] := by
  decide

/-- Claim C7 (code_bug evidence): after open-object, open-array,
open-object, close-object the innermost open container is the array
(specification stack `[arr, obj]`), yet `esp_cam_json_key` succeeds and
writes a key there, because the `in_object` flag survives the nested
close. -/
theorem key_accepted_inside_array_eval :
    stackAfter [.openObj, .openArr, .openObj, .closeObj]
      = some [FrameKind.arr, FrameKind.obj]
    ∧ (esp_cam_json_key
        (runContainerOps [.openObj, .openArr, .openObj, .closeObj] jb64).2
        ['k']).1 = .ok := by
  decide

/-- Claim C3 (code_bug evidence): assembling with prompt `P` and image
bytes 1,2,3 produces a document that is missing both closing brackets
(the two `esp_cam_json_end_array` calls fail and are ignored), with
`generationConfig` spliced inside the unclosed nesting — not the
reference document of the claim. -/
theorem payload_assembler_output_malformed_eval :
    (ESP_CAM_CaptureAndGetGeminiPayload_model "P".toList [1, 2, 3]).2
      = some ("\x7b\"contents\":[\x7b\"parts\":[\x7b\"text\":\"P\"\x7d,\x7b\"inline_data\":\x7b\"mime_type\":\"image/jpeg\",\"data\":\"AQID\"\x7d\x7d\x7d,\"generationConfig\":\x7b\"maxOutputTokens\":100\x7d\x7d".toList)
    ∧ (ESP_CAM_CaptureAndGetGeminiPayload_model "P".toList [1, 2, 3]).2
      ≠ some ("\x7b\"contents\":[\x7b\"parts\":[\x7b\"text\":\"P\"\x7d,\x7b\"inline_data\":\x7b\"mime_type\":\"image/jpeg\",\"data\":\"AQID\"\x7d\x7d]\x7d],\"generationConfig\":\x7b\"maxOutputTokens\":100\x7d\x7d".toList) := by
  decide

/-- Claim C6 (code_bug evidence): on the same input the builder reports
a structural state error during assembly (twice), yet the assembler
returns a non-null, structurally malformed buffer (no `]` at all)
instead of releasing it and returning null. -/
theorem assembler_ignores_builder_errors_eval :
    EspErr.invalidState ∈ (ESP_CAM_CaptureAndGetGeminiPayload_model "P".toList [1, 2, 3]).1
    ∧ (ESP_CAM_CaptureAndGetGeminiPayload_model "P".toList [1, 2, 3]).2 ≠ none
    ∧ ((ESP_CAM_CaptureAndGetGeminiPayload_model "P".toList [1, 2, 3]).2.map
        (fun s => s.contains ']')) = some false := by
  decide

/-- Claim C5 counterexample: on the exact response text of the claim
(no space after the colon of the text field) the extractor does not find
the marker `"text": "` and returns null, not the claimed string. -/
theorem extract_text_claim_input_not_found :
    gemini_client_extract_text
      "\x7b\"candidates\":[\x7b\"content\":\x7b\"parts\":[\x7b\"text\":\"Hello \\\"world\\\"\"\x7d]\x7d\x7d]\x7d".toList
      = none := by
  decide

/-- Claim C5 amended: with the marker spacing the code searches for (a
space after the colon, as in section 6 of the specification), the
extractor returns the unescaped string `Hello "world"`. -/
theorem extract_text_spaced_marker_ok :
    gemini_client_extract_text
      "\x7b\"candidates\":[\x7b\"content\":\x7b\"parts\":[\x7b\"text\": \"Hello \\\"world\\\"\"\x7d]\x7d\x7d]\x7d".toList
      = some ("Hello \"world\"".toList) := by
  decide

/-- Claim C8 counterexample: a response without the marker and a response
whose marker is present but whose value is never terminated produce the
same caller-visible result (null = null); the two failure classes are not
surfaced distinctly. -/
theorem extract_text_failures_indistinguishable :
    gemini_client_extract_text "\x7b\"foo\":1\x7d".toList
      = gemini_client_extract_text "\x7b\"text\": \"unterminated".toList
    ∧ strstr_idx "\x7b\"foo\":1\x7d".toList text_marker = none
    ∧ strstr_idx "\x7b\"text\": \"unterminated".toList text_marker = some 1 := by
  decide

/-- Claim C8 amended: the extractor returns null both when the marker is
absent and when the marker is present but no unescaped closing quote
follows before the end of input; the caller receives the same value in
both classes. -/
theorem extract_text_both_failures_null (response : List Char)
    (h : strstr_idx response text_marker = none ∨
         ∃ i, strstr_idx response text_marker = some i ∧
           scanToQuote (response.drop (i + text_marker.length)) false = none) :
    gemini_client_extract_text response = none := by
  unfold gemini_client_extract_text
  rcases h with h | ⟨i, h1, h2⟩
  · split
    · rfl
    · rw [h]
  · split
    · rfl
    · rw [h1]
      simp only [h2]

/-- Witness for `extract_text_both_failures_null` at a concrete
unterminated response. -/
theorem extract_text_both_failures_null_witness :
    gemini_client_extract_text "\x7b\"text\": \"unterminated".toList = none :=
  extract_text_both_failures_null _ (Or.inr ⟨1, by decide, by decide⟩)

/-- Claim C1 counterexample: `esp_cam_base64_encode_stream` does not
satisfy chunking invariance — presenting 0,0,0 whole gives `AAAA`, while
the split 0 then 0,0 with the carried state gives eight characters. -/
theorem esp_cam_stream_split_not_invariant :
    (esp_cam_base64_encode_stream [0, 0, 0] 0).1
      ≠ (esp_cam_base64_encode_stream [0] 0).1
        ++ (esp_cam_base64_encode_stream [0, 0]
              (esp_cam_base64_encode_stream [0] 0).2).1 := by
  decide

/-! ## Chunking invariance of `encode_base64_chunk` + `encode_base64_finalize` -/

/-- Fuel version of the capacity-free drain of complete 6-bit groups
(what the emit loop produces when the output buffer never fills up). -/
def emitCoreF (buffer : Nat) : Nat → Nat → List Char
  | 0, _ => []
  | fuel + 1, bsize =>
    if 6 ≤ bsize then
      b64char ((buffer >>> (bsize - 6)) &&& 0x3F) :: emitCoreF buffer fuel (bsize - 6)
    else []

/-- Capacity-free drain of complete 6-bit groups. -/
def emitCore (buffer bsize : Nat) : List Char := emitCoreF buffer bsize bsize

/-- Capacity-free byte loop of `encode_base64_chunk`: shift each byte in,
drain every complete 6-bit group.  Returns (output, buffer, bit count). -/
def chunkCore : List Nat → Nat → Nat → List Char × Nat × Nat
  | [], buffer, bsize => ([], buffer, bsize)
  | byte :: rest, buffer, bsize =>
    let buffer1 := ((buffer <<< 8) % 4294967296) ||| byte
    let r := chunkCore rest buffer1 ((bsize + 8) % 6)
    (emitCore buffer1 (bsize + 8) ++ r.1, r.2.1, r.2.2)

theorem emitCoreF_length (buffer : Nat) :
    ∀ fuel bsize, bsize ≤ fuel → (emitCoreF buffer fuel bsize).length = bsize / 6 := by
  intro fuel
  induction fuel with
  | zero =>
    intro bsize h
    have : bsize = 0 := by omega
    subst this
    rfl
  | succ fuel ih =>
    intro bsize h
    by_cases h6 : 6 ≤ bsize
    · simp only [emitCoreF, if_pos h6, List.length_cons, ih (bsize - 6) (by omega)]
      omega
    · simp only [emitCoreF, if_neg h6, List.length_nil]
      omega

theorem emitCore_length (buffer bsize : Nat) :
    (emitCore buffer bsize).length = bsize / 6 :=
  emitCoreF_length buffer bsize bsize (Nat.le_refl bsize)

theorem emitLoopF_eq_core (buffer : Nat) :
    ∀ fuel bsize j osize, bsize ≤ fuel → j + bsize / 6 ≤ osize →
      emitLoopF buffer fuel bsize j osize
        = (emitCoreF buffer fuel bsize, bsize % 6, j + bsize / 6) := by
  intro fuel
  induction fuel with
  | zero =>
    intro bsize j osize h1 h2
    have : bsize = 0 := by omega
    subst this
    rfl
  | succ fuel ih =>
    intro bsize j osize h1 h2
    by_cases h6 : 6 ≤ bsize
    · have hj : j < osize := by
        have : 1 ≤ bsize / 6 := by
          have := Nat.div_le_div_right (c := 6) h6
          simpa using this
        omega
      have hrec := ih (bsize - 6) (j + 1) osize (by omega)
        (by have : (bsize - 6) / 6 = bsize / 6 - 1 := by omega
            omega)
      simp only [emitLoopF, emitCoreF, if_pos (And.intro h6 hj), if_pos h6, hrec]
      refine congrArg _ ?_
      have h61 : (bsize - 6) % 6 = bsize % 6 := by omega
      have h62 : j + 1 + (bsize - 6) / 6 = j + bsize / 6 := by omega
      rw [h61, h62]
    · have : ¬ (6 ≤ bsize ∧ j < osize) := fun hc => h6 hc.1
      simp only [emitLoopF, emitCoreF, if_neg this, if_neg h6]
      have h61 : bsize % 6 = bsize := by omega
      have h62 : bsize / 6 = 0 := by omega
      rw [h61, h62, Nat.add_zero]

theorem emitLoop_eq_core (buffer bsize j osize : Nat)
    (h : j + bsize / 6 ≤ osize) :
    emitLoop buffer bsize j osize = (emitCore buffer bsize, bsize % 6, j + bsize / 6) :=
  emitLoopF_eq_core buffer bsize bsize j osize (Nat.le_refl bsize) h

theorem chunkCore_length_bsize :
    ∀ (input : List Nat) (buffer bsize : Nat), bsize ≤ 5 →
      (chunkCore input buffer bsize).1.length = (bsize + 8 * input.length) / 6
      ∧ (chunkCore input buffer bsize).2.2 = (bsize + 8 * input.length) % 6 := by
  intro input
  induction input with
  | nil =>
    intro buffer bsize h
    simp only [chunkCore, List.length_nil]
    constructor
    · omega
    · omega
  | cons byte rest ih =>
    intro buffer bsize h
    have hrec := ih (((buffer <<< 8) % 4294967296) ||| byte) ((bsize + 8) % 6) (by omega)
    simp only [chunkCore, List.length_append, List.length_cons, emitCore_length,
      hrec.1, hrec.2]
    constructor
    · omega
    · omega

theorem chunkCore_bsize_le (input : List Nat) (buffer bsize : Nat) (h : bsize ≤ 5) :
    (chunkCore input buffer bsize).2.2 ≤ 5 := by
  have := (chunkCore_length_bsize input buffer bsize h).2
  omega

theorem chunkCore_append :
    ∀ (xs ys : List Nat) (buffer bsize : Nat),
      chunkCore (xs ++ ys) buffer bsize
        = ((chunkCore xs buffer bsize).1
             ++ (chunkCore ys (chunkCore xs buffer bsize).2.1
                   (chunkCore xs buffer bsize).2.2).1,
           (chunkCore ys (chunkCore xs buffer bsize).2.1
              (chunkCore xs buffer bsize).2.2).2.1,
           (chunkCore ys (chunkCore xs buffer bsize).2.1
              (chunkCore xs buffer bsize).2.2).2.2) := by
  intro xs
  induction xs with
  | nil =>
    intro ys buffer bsize
    simp only [List.nil_append, chunkCore, List.append_nil]
  | cons byte rest ih =>
    intro ys buffer bsize
    rw [List.cons_append]
    simp only [chunkCore]
    rw [ih]
    simp only [List.append_assoc]

theorem chunkLoop_eq_core :
    ∀ (input : List Nat) (buffer bsize j osize : Nat), bsize ≤ 5 →
      j + 2 * input.length ≤ osize →
      chunkLoop input buffer bsize j osize
        = ((chunkCore input buffer bsize).1,
           (chunkCore input buffer bsize).2.1,
           (chunkCore input buffer bsize).2.2,
           j + (chunkCore input buffer bsize).1.length) := by
  intro input
  induction input with
  | nil =>
    intro buffer bsize j osize h1 h2
    simp only [chunkLoop, chunkCore, List.length_nil, Nat.add_zero]
  | cons byte rest ih =>
    intro buffer bsize j osize h1 h2
    have hm : (bsize + 8) % 256 = bsize + 8 := Nat.mod_eq_of_lt (by omega)
    have hemit := emitLoop_eq_core (((buffer <<< 8) % 4294967296) ||| byte)
      (bsize + 8) j osize (by simp only [List.length_cons] at h2; omega)
    have hrec := ih (((buffer <<< 8) % 4294967296) ||| byte) ((bsize + 8) % 6)
      (j + (bsize + 8) / 6) osize (by omega)
      (by simp only [List.length_cons] at h2 ⊢; omega)
    have hlen := (chunkCore_length_bsize rest
      (((buffer <<< 8) % 4294967296) ||| byte) ((bsize + 8) % 6) (by omega)).1
    simp only [chunkLoop, chunkCore, hm, hemit, hrec, List.length_append,
      emitCore_length, hlen, Prod.mk.injEq]
    refine ⟨trivial, trivial, trivial, by omega⟩

theorem encode_chunk_eq_core (input : List Nat) (osize : Nat) (s : Base64State)
    (h1 : s.buffer_size ≤ 5) (h2 : 2 * input.length ≤ osize) :
    encode_base64_chunk input osize s
      = ((chunkCore input s.buffer s.buffer_size).1,
         ⟨(chunkCore input s.buffer s.buffer_size).2.1,
          (chunkCore input s.buffer s.buffer_size).2.2, s.total_bytes⟩) := by
  match input with
  | [] => rfl
  | byte :: rest =>
    simp only [encode_base64_chunk, if_neg (List.cons_ne_nil byte rest),
      chunkLoop_eq_core (byte :: rest) s.buffer s.buffer_size 0 osize h1 (by omega)]

/-- Feed a list of (chunk, output capacity) jobs through
`encode_base64_chunk`, threading the state, and concatenate the
outputs. -/
def encodeChunkedJobs : List (List Nat × Nat) → Base64State → List Char × Base64State
  | [], s => ([], s)
  | job :: rest, s =>
    let r := encode_base64_chunk job.1 job.2 s
    let rr := encodeChunkedJobs rest r.2
    (r.1 ++ rr.1, rr.2)

theorem encodeChunkedJobs_eq_core :
    ∀ (jobs : List (List Nat × Nat)) (s : Base64State),
      (∀ job ∈ jobs, 2 * job.1.length ≤ job.2) → s.buffer_size ≤ 5 →
      encodeChunkedJobs jobs s
        = ((chunkCore ((jobs.map Prod.fst).flatten) s.buffer s.buffer_size).1,
           ⟨(chunkCore ((jobs.map Prod.fst).flatten) s.buffer s.buffer_size).2.1,
            (chunkCore ((jobs.map Prod.fst).flatten) s.buffer s.buffer_size).2.2,
            s.total_bytes⟩) := by
  intro jobs
  induction jobs with
  | nil =>
    intro s hjobs hb
    simp only [encodeChunkedJobs, List.map_nil, List.flatten_nil, chunkCore]
  | cons job rest ih =>
    intro s hjobs hb
    have hjob := hjobs job (List.mem_cons_self job rest)
    have hrest : ∀ j ∈ rest, 2 * j.1.length ≤ j.2 :=
      fun j hj => hjobs j (List.mem_cons_of_mem job hj)
    have h1 := encode_chunk_eq_core job.1 job.2 s hb hjob
    have h2 := ih ⟨(chunkCore job.1 s.buffer s.buffer_size).2.1,
                   (chunkCore job.1 s.buffer s.buffer_size).2.2, s.total_bytes⟩
      hrest (chunkCore_bsize_le job.1 s.buffer s.buffer_size hb)
    simp only [encodeChunkedJobs, h1, h2, List.map_cons, List.flatten_cons,
      chunkCore_append job.1 ((rest.map Prod.fst).flatten) s.buffer s.buffer_size]

/-- Claim C1 amended: for the chunked encoder with an explicit finalize
(`encode_base64_chunk` / `encode_base64_finalize`), feeding any list of
sub-slices in order from a zero-initialized state and then finalizing
yields output byte-identical to presenting the whole sequence as one
chunk call and finalizing, provided every call gets output capacity of at
least twice its input length. -/
theorem encode_chunk_finalize_split_invariant (jobs : List (List Nat × Nat))
    (wcap fcap : Nat)
    (hjobs : ∀ job ∈ jobs, 2 * job.1.length ≤ job.2)
    (hw : 2 * ((jobs.map Prod.fst).flatten).length ≤ wcap) :
    (encodeChunkedJobs jobs zeroB64State).1
      ++ (encode_base64_finalize fcap (encodeChunkedJobs jobs zeroB64State).2).1
    = (encode_base64_chunk ((jobs.map Prod.fst).flatten) wcap zeroB64State).1
      ++ (encode_base64_finalize fcap
            (encode_base64_chunk ((jobs.map Prod.fst).flatten) wcap zeroB64State).2).1 := by
  rw [encodeChunkedJobs_eq_core jobs zeroB64State hjobs (by decide),
      encode_chunk_eq_core ((jobs.map Prod.fst).flatten) wcap zeroB64State (by decide) hw]

/-- Witness for `encode_chunk_finalize_split_invariant`: the bytes
1,2,3 split as [1] then [2,3]. -/
theorem encode_chunk_finalize_split_invariant_witness :
    (∀ job ∈ ([([1], 2), ([2, 3], 6)] : List (List Nat × Nat)),
        2 * job.1.length ≤ job.2)
    ∧ ((encodeChunkedJobs [([1], 2), ([2, 3], 6)] zeroB64State).1
        ++ (encode_base64_finalize 4
              (encodeChunkedJobs [([1], 2), ([2, 3], 6)] zeroB64State).2).1
      = (encode_base64_chunk [1, 2, 3] 6 zeroB64State).1
        ++ (encode_base64_finalize 4
              (encode_base64_chunk [1, 2, 3] 6 zeroB64State).2).1) :=
  ⟨by decide,
   encode_chunk_finalize_split_invariant [([1], 2), ([2, 3], 6)] 6 4
     (by decide) (by decide)⟩

/-- Ceiling division on naturals, the claim-side reading of ceil(n/3). -/
def ceil_div (a b : Nat) : Nat := (a + b - 1) / b

theorem finalize_length_le (fcap : Nat) (s : Base64State)
    (h : s.total_bytes % 3 = 0) :
    (encode_base64_finalize fcap s).1.length
      ≤ if s.buffer_size = 0 then 0 else 1 := by
  unfold encode_base64_finalize
  simp only [h, Nat.sub_zero, Nat.mod_self, Nat.min_def, List.length_append,
    List.length_replicate]
  by_cases hb : s.buffer_size = 0
  · simp [hb]
  · have : 0 < s.buffer_size := Nat.pos_of_ne_zero hb
    by_cases hf : 0 < fcap
    · simp [if_pos (And.intro this hf), hb]
    · simp [hf, hb]

/-- Claim C9: both length formulas equal the claim-side
ceil(n/3)*4 plus one byte of headroom for a terminator, and that value
bounds the bytes actually consumed by any adequately-sized sequence of
chunk calls followed by finalize (data characters, the at-most-one
partial-group character, and the terminator byte). -/
theorem encoded_length_formula_and_bound (jobs : List (List Nat × Nat))
    (fcap : Nat) (hjobs : ∀ job ∈ jobs, 2 * job.1.length ≤ job.2) :
    (∀ n, calculate_base64_length n = ceil_div n 3 * 4 + 1)
    ∧ (∀ n, esp_cam_base64_encode_len n = ceil_div n 3 * 4 + 1)
    ∧ (encodeChunkedJobs jobs zeroB64State).1.length
        + (encode_base64_finalize fcap (encodeChunkedJobs jobs zeroB64State).2).1.length
        + 1
      ≤ calculate_base64_length ((jobs.map Prod.fst).flatten).length := by
  refine ⟨?_, ?_, ?_⟩
  · intro n
    unfold calculate_base64_length ceil_div
    omega
  · intro n
    unfold esp_cam_base64_encode_len ceil_div
    omega
  · rw [encodeChunkedJobs_eq_core jobs zeroB64State hjobs (by decide)]
    simp only [zeroB64State]
    have hc := chunkCore_length_bsize ((jobs.map Prod.fst).flatten) 0 0 (by omega)
    rw [hc.1, hc.2]
    have hfin := finalize_length_le fcap
      ⟨(chunkCore ((jobs.map Prod.fst).flatten) 0 0).2.1,
       (0 + 8 * ((jobs.map Prod.fst).flatten).length) % 6, 0⟩ rfl
    simp only at hfin
    unfold calculate_base64_length
    by_cases h6 : (0 + 8 * ((jobs.map Prod.fst).flatten).length) % 6 = 0
    · rw [if_pos h6] at hfin
      omega
    · rw [if_neg h6] at hfin
      omega

/-- Witness for `encoded_length_formula_and_bound`: the two bytes 1,2 in
a single chunk of capacity 4, finalize capacity 8. -/
theorem encoded_length_formula_and_bound_witness :
    (∀ job ∈ ([([1, 2], 4)] : List (List Nat × Nat)), 2 * job.1.length ≤ job.2)
    ∧ ((∀ n, calculate_base64_length n = ceil_div n 3 * 4 + 1)
       ∧ (∀ n, esp_cam_base64_encode_len n = ceil_div n 3 * 4 + 1)
       ∧ (encodeChunkedJobs [([1, 2], 4)] zeroB64State).1.length
           + (encode_base64_finalize 8
               (encodeChunkedJobs [([1, 2], 4)] zeroB64State).2).1.length
           + 1
         ≤ calculate_base64_length 2) :=
  ⟨by decide, encoded_length_formula_and_bound [([1, 2], 4)] 8 (by decide)⟩

/-! ## The buffer invariant of the JSON builder -/

theorem strcpyAt_length : ∀ (s buf : List Char) (pos : Nat),
    (strcpyAt buf pos s).length = buf.length := by
  intro s
  induction s with
  | nil =>
    intro buf pos
    simp [strcpyAt]
  | cons c cs ih =>
    intro buf pos
    simp [strcpyAt, ih]

theorem get_set_self_char (l : List Char) (i : Nat) (c : Char) (h : i < l.length) :
    (l.set i c).get? i = some c := by
  induction l generalizing i with
  | nil => simp at h
  | cons a t ih =>
    cases i with
    | zero => rfl
    | succ n =>
      show (a :: t.set n c).get? (n + 1) = some c
      simpa using ih n (by simpa using h)

theorem strcpyAt_get_last : ∀ (s buf : List Char) (pos : Nat),
    pos + s.length < buf.length →
    (strcpyAt buf pos s).get? (pos + s.length) = some '\x00' := by
  intro s
  induction s with
  | nil =>
    intro buf pos h
    simpa [strcpyAt] using get_set_self_char buf pos '\x00' (by simpa using h)
  | cons c cs ih =>
    intro buf pos h
    have hidx : pos + (c :: cs).length = (pos + 1) + cs.length := by
      simp only [List.length_cons]
      omega
    rw [hidx]
    show (strcpyAt (buf.set pos c) (pos + 1) cs).get? (pos + 1 + cs.length) = some '\x00'
    exact ih (buf.set pos c) (pos + 1)
      (by simp only [List.length_set]; simp only [List.length_cons] at h; omega)

/-- The invariant of claim C10: the cursor is strictly inside the buffer
and a null terminator sits at the cursor position. -/
def BufOk (buf : List Char) (len : Nat) : Prop :=
  len < buf.length ∧ buf.get? len = some '\x00'

theorem write_to_buffer_spec (buf : List Char) (len : Nat) (s : List Char)
    (h : BufOk buf len) :
    BufOk (write_to_buffer buf len s).2.1 (write_to_buffer buf len s).2.2
    ∧ (write_to_buffer buf len s).2.1.length = buf.length := by
  unfold write_to_buffer
  split
  · exact ⟨h, rfl⟩
  · next hlt =>
    dsimp only
    have hlt2 : len + s.length < buf.length := by omega
    exact ⟨⟨by rw [strcpyAt_length]; omega, strcpyAt_get_last s buf len hlt2⟩,
           strcpyAt_length s buf len⟩

theorem string_loop_spec : ∀ (value buf : List Char) (len : Nat),
    BufOk buf len →
    BufOk (esp_cam_json_string_loop buf len value).2.1
          (esp_cam_json_string_loop buf len value).2.2
    ∧ (esp_cam_json_string_loop buf len value).2.1.length = buf.length := by
  intro value
  induction value with
  | nil =>
    intro buf len h
    exact ⟨h, rfl⟩
  | cons ch rest ih =>
    intro buf len h
    simp only [esp_cam_json_string_loop]
    by_cases h1 : ch = '"' ∨ ch = '\\'
    · rw [if_pos h1]
      by_cases h2 : buf.length ≤ len + 2
      · rw [if_pos h2]
        exact ⟨h, rfl⟩
      · rw [if_neg h2]
        have hlen : (((buf.set len '\\').set (len + 1) ch).set (len + 2) '\x00').length
            = buf.length := by
          simp [List.length_set]
        have hok : BufOk (((buf.set len '\\').set (len + 1) ch).set (len + 2) '\x00')
            (len + 2) := by
          refine ⟨by rw [hlen]; omega, ?_⟩
          exact get_set_self_char _ (len + 2) '\x00' (by simp [List.length_set]; omega)
        have hr := ih _ (len + 2) hok
        exact ⟨hr.1, by rw [hr.2, hlen]⟩
    · rw [if_neg h1]
      by_cases hc : ch.toNat < 32
      · rw [if_pos hc]
        rcases hw : write_to_buffer buf len
            (if ch = '\x08' then ['\\', 'b']
             else if ch = '\x0c' then ['\\', 'f']
             else if ch = '\n' then ['\\', 'n']
             else if ch = '\r' then ['\\', 'r']
             else if ch = '\t' then ['\\', 't']
             else ['\\', 'u', '0', '0', hexDigit (ch.toNat / 16),
                   hexDigit (ch.toNat % 16)]) with ⟨e, b1, l1⟩
        have hs := write_to_buffer_spec buf len
            (if ch = '\x08' then ['\\', 'b']
             else if ch = '\x0c' then ['\\', 'f']
             else if ch = '\n' then ['\\', 'n']
             else if ch = '\r' then ['\\', 'r']
             else if ch = '\t' then ['\\', 't']
             else ['\\', 'u', '0', '0', hexDigit (ch.toNat / 16),
                   hexDigit (ch.toNat % 16)]) h
        rw [hw] at hs
        dsimp only at hs
        cases e with
        | ok =>
          have hr := ih b1 l1 hs.1
          exact ⟨hr.1, by rw [hr.2, hs.2]⟩
        | noMem => exact hs
        | invalidState => exact hs
      · rw [if_neg hc]
        by_cases h2 : buf.length ≤ len + 1
        · rw [if_pos h2]
          exact ⟨h, rfl⟩
        · rw [if_neg h2]
          have hlen : ((buf.set len ch).set (len + 1) '\x00').length = buf.length := by
            simp [List.length_set]
          have hok : BufOk ((buf.set len ch).set (len + 1) '\x00') (len + 1) := by
            refine ⟨by rw [hlen]; omega, ?_⟩
            exact get_set_self_char _ (len + 1) '\x00' (by simp [List.length_set]; omega)
          have hr := ih _ (len + 1) hok
          exact ⟨hr.1, by rw [hr.2, hlen]⟩

theorem sep_spec (c : JB) (h : BufOk c.buf c.len) :
    BufOk (if c.st.needs_separator then write_to_buffer c.buf c.len [',']
           else (.ok, c.buf, c.len)).2.1
          (if c.st.needs_separator then write_to_buffer c.buf c.len [',']
           else (.ok, c.buf, c.len)).2.2
    ∧ (if c.st.needs_separator then write_to_buffer c.buf c.len [',']
       else (.ok, c.buf, c.len)).2.1.length = c.buf.length := by
  split
  · exact write_to_buffer_spec c.buf c.len [','] h
  · exact ⟨h, rfl⟩

theorem start_object_spec (c : JB) (h : BufOk c.buf c.len) :
    BufOk (esp_cam_json_start_object c).2.buf (esp_cam_json_start_object c).2.len
    ∧ (esp_cam_json_start_object c).2.buf.length = c.buf.length := by
  simp only [esp_cam_json_start_object]
  rcases hw1 : (if c.st.needs_separator then write_to_buffer c.buf c.len [',']
                else (.ok, c.buf, c.len)) with ⟨e1, b1, l1⟩
  have hs1 := sep_spec c h
  rw [hw1] at hs1
  dsimp only at hs1
  cases e1 with
  | ok =>
    dsimp only
    rcases hw2 : write_to_buffer b1 l1 ['{'] with ⟨e2, b2, l2⟩
    have hs2 := write_to_buffer_spec b1 l1 ['{'] hs1.1
    rw [hw2] at hs2
    dsimp only at hs2
    cases e2 with
    | ok => exact ⟨hs2.1, by rw [hs2.2, hs1.2]⟩
    | noMem => exact ⟨hs2.1, by rw [hs2.2, hs1.2]⟩
    | invalidState => exact ⟨hs2.1, by rw [hs2.2, hs1.2]⟩
  | noMem => exact hs1
  | invalidState => exact hs1

theorem start_array_spec (c : JB) (h : BufOk c.buf c.len) :
    BufOk (esp_cam_json_start_array c).2.buf (esp_cam_json_start_array c).2.len
    ∧ (esp_cam_json_start_array c).2.buf.length = c.buf.length := by
  simp only [esp_cam_json_start_array]
  rcases hw1 : (if c.st.needs_separator then write_to_buffer c.buf c.len [',']
                else (.ok, c.buf, c.len)) with ⟨e1, b1, l1⟩
  have hs1 := sep_spec c h
  rw [hw1] at hs1
  dsimp only at hs1
  cases e1 with
  | ok =>
    dsimp only
    rcases hw2 : write_to_buffer b1 l1 ['['] with ⟨e2, b2, l2⟩
    have hs2 := write_to_buffer_spec b1 l1 ['['] hs1.1
    rw [hw2] at hs2
    dsimp only at hs2
    cases e2 with
    | ok => exact ⟨hs2.1, by rw [hs2.2, hs1.2]⟩
    | noMem => exact ⟨hs2.1, by rw [hs2.2, hs1.2]⟩
    | invalidState => exact ⟨hs2.1, by rw [hs2.2, hs1.2]⟩
  | noMem => exact hs1
  | invalidState => exact hs1

theorem end_object_spec (c : JB) (h : BufOk c.buf c.len) :
    BufOk (esp_cam_json_end_object c).2.buf (esp_cam_json_end_object c).2.len
    ∧ (esp_cam_json_end_object c).2.buf.length = c.buf.length := by
  simp only [esp_cam_json_end_object]
  split
  · exact ⟨h, rfl⟩
  · rcases hw1 : write_to_buffer c.buf c.len ['}'] with ⟨e1, b1, l1⟩
    have hs1 := write_to_buffer_spec c.buf c.len ['}'] h
    rw [hw1] at hs1
    dsimp only at hs1
    cases e1 with
    | ok =>
      dsimp only
      split
      · exact hs1
      · exact hs1
    | noMem => exact hs1
    | invalidState => exact hs1

theorem end_array_spec (c : JB) (h : BufOk c.buf c.len) :
    BufOk (esp_cam_json_end_array c).2.buf (esp_cam_json_end_array c).2.len
    ∧ (esp_cam_json_end_array c).2.buf.length = c.buf.length := by
  simp only [esp_cam_json_end_array]
  split
  · exact ⟨h, rfl⟩
  · rcases hw1 : write_to_buffer c.buf c.len [']'] with ⟨e1, b1, l1⟩
    have hs1 := write_to_buffer_spec c.buf c.len [']'] h
    rw [hw1] at hs1
    dsimp only at hs1
    cases e1 with
    | ok =>
      dsimp only
      split
      · exact hs1
      · exact hs1
    | noMem => exact hs1
    | invalidState => exact hs1

theorem key_spec (c : JB) (key : List Char) (h : BufOk c.buf c.len) :
    BufOk (esp_cam_json_key c key).2.buf (esp_cam_json_key c key).2.len
    ∧ (esp_cam_json_key c key).2.buf.length = c.buf.length := by
  simp only [esp_cam_json_key]
  split
  · exact ⟨h, rfl⟩
  · rcases hw1 : (if c.st.needs_separator then write_to_buffer c.buf c.len [',']
                  else (.ok, c.buf, c.len)) with ⟨e1, b1, l1⟩
    have hs1 := sep_spec c h
    rw [hw1] at hs1
    dsimp only at hs1
    cases e1 with
    | ok =>
      dsimp only
      rcases hw2 : write_to_buffer b1 l1 ['"'] with ⟨e2, b2, l2⟩
      have hs2 := write_to_buffer_spec b1 l1 ['"'] hs1.1
      rw [hw2] at hs2
      dsimp only at hs2
      cases e2 with
      | ok =>
        dsimp only
        rcases hw3 : write_to_buffer b2 l2 key with ⟨e3, b3, l3⟩
        have hs3 := write_to_buffer_spec b2 l2 key hs2.1
        rw [hw3] at hs3
        dsimp only at hs3
        cases e3 with
        | ok =>
          dsimp only
          rcases hw4 : write_to_buffer b3 l3 ['"', ':'] with ⟨e4, b4, l4⟩
          have hs4 := write_to_buffer_spec b3 l3 ['"', ':'] hs3.1
          rw [hw4] at hs4
          dsimp only at hs4
          cases e4 with
          | ok => exact ⟨hs4.1, by rw [hs4.2, hs3.2, hs2.2, hs1.2]⟩
          | noMem => exact ⟨hs4.1, by rw [hs4.2, hs3.2, hs2.2, hs1.2]⟩
          | invalidState => exact ⟨hs4.1, by rw [hs4.2, hs3.2, hs2.2, hs1.2]⟩
        | noMem => exact ⟨hs3.1, by rw [hs3.2, hs2.2, hs1.2]⟩
        | invalidState => exact ⟨hs3.1, by rw [hs3.2, hs2.2, hs1.2]⟩
      | noMem => exact ⟨hs2.1, by rw [hs2.2, hs1.2]⟩
      | invalidState => exact ⟨hs2.1, by rw [hs2.2, hs1.2]⟩
    | noMem => exact hs1
    | invalidState => exact hs1

theorem string_spec (c : JB) (value : List Char) (h : BufOk c.buf c.len) :
    BufOk (esp_cam_json_string c value).2.buf (esp_cam_json_string c value).2.len
    ∧ (esp_cam_json_string c value).2.buf.length = c.buf.length := by
  simp only [esp_cam_json_string]
  rcases hw1 : (if c.st.needs_separator then write_to_buffer c.buf c.len [',']
                else (.ok, c.buf, c.len)) with ⟨e1, b1, l1⟩
  have hs1 := sep_spec c h
  rw [hw1] at hs1
  dsimp only at hs1
  cases e1 with
  | ok =>
    dsimp only
    rcases hw2 : write_to_buffer b1 l1 ['"'] with ⟨e2, b2, l2⟩
    have hs2 := write_to_buffer_spec b1 l1 ['"'] hs1.1
    rw [hw2] at hs2
    dsimp only at hs2
    cases e2 with
    | ok =>
      dsimp only
      rcases hw3 : esp_cam_json_string_loop b2 l2 value with ⟨e3, b3, l3⟩
      have hs3 := string_loop_spec value b2 l2 hs2.1
      rw [hw3] at hs3
      dsimp only at hs3
      cases e3 with
      | ok =>
        dsimp only
        rcases hw4 : write_to_buffer b3 l3 ['"'] with ⟨e4, b4, l4⟩
        have hs4 := write_to_buffer_spec b3 l3 ['"'] hs3.1
        rw [hw4] at hs4
        dsimp only at hs4
        cases e4 with
        | ok => exact ⟨hs4.1, by rw [hs4.2, hs3.2, hs2.2, hs1.2]⟩
        | noMem => exact ⟨hs4.1, by rw [hs4.2, hs3.2, hs2.2, hs1.2]⟩
        | invalidState => exact ⟨hs4.1, by rw [hs4.2, hs3.2, hs2.2, hs1.2]⟩
      | noMem => exact ⟨hs3.1, by rw [hs3.2, hs2.2, hs1.2]⟩
      | invalidState => exact ⟨hs3.1, by rw [hs3.2, hs2.2, hs1.2]⟩
    | noMem => exact ⟨hs2.1, by rw [hs2.2, hs1.2]⟩
    | invalidState => exact ⟨hs2.1, by rw [hs2.2, hs1.2]⟩
  | noMem => exact hs1
  | invalidState => exact hs1

theorem number_spec (c : JB) (value : List Char) (h : BufOk c.buf c.len) :
    BufOk (esp_cam_json_number c value).2.buf (esp_cam_json_number c value).2.len
    ∧ (esp_cam_json_number c value).2.buf.length = c.buf.length := by
  simp only [esp_cam_json_number]
  rcases hw1 : (if c.st.needs_separator then write_to_buffer c.buf c.len [',']
                else (.ok, c.buf, c.len)) with ⟨e1, b1, l1⟩
  have hs1 := sep_spec c h
  rw [hw1] at hs1
  dsimp only at hs1
  cases e1 with
  | ok =>
    dsimp only
    rcases hw2 : write_to_buffer b1 l1 value with ⟨e2, b2, l2⟩
    have hs2 := write_to_buffer_spec b1 l1 value hs1.1
    rw [hw2] at hs2
    dsimp only at hs2
    cases e2 with
    | ok => exact ⟨hs2.1, by rw [hs2.2, hs1.2]⟩
    | noMem => exact ⟨hs2.1, by rw [hs2.2, hs1.2]⟩
    | invalidState => exact ⟨hs2.1, by rw [hs2.2, hs1.2]⟩
  | noMem => exact hs1
  | invalidState => exact hs1

theorem bool_spec (c : JB) (value : Bool) (h : BufOk c.buf c.len) :
    BufOk (esp_cam_json_bool c value).2.buf (esp_cam_json_bool c value).2.len
    ∧ (esp_cam_json_bool c value).2.buf.length = c.buf.length :=
  number_spec c (if value then "true".toList else "false".toList) h

theorem null_spec (c : JB) (h : BufOk c.buf c.len) :
    BufOk (esp_cam_json_null c).2.buf (esp_cam_json_null c).2.len
    ∧ (esp_cam_json_null c).2.buf.length = c.buf.length :=
  number_spec c "null".toList h

theorem key_string_spec (c : JB) (key value : List Char) (h : BufOk c.buf c.len) :
    BufOk (esp_cam_json_key_string c key value).2.buf
          (esp_cam_json_key_string c key value).2.len
    ∧ (esp_cam_json_key_string c key value).2.buf.length = c.buf.length := by
  simp only [esp_cam_json_key_string]
  rcases hw1 : esp_cam_json_key c key with ⟨e1, c1⟩
  have hs1 := key_spec c key h
  rw [hw1] at hs1
  dsimp only at hs1
  cases e1 with
  | ok =>
    dsimp only
    have hs2 := string_spec c1 value hs1.1
    exact ⟨hs2.1, by rw [hs2.2, hs1.2]⟩
  | noMem => exact hs1
  | invalidState => exact hs1

theorem key_number_spec (c : JB) (key value : List Char) (h : BufOk c.buf c.len) :
    BufOk (esp_cam_json_key_number c key value).2.buf
          (esp_cam_json_key_number c key value).2.len
    ∧ (esp_cam_json_key_number c key value).2.buf.length = c.buf.length := by
  simp only [esp_cam_json_key_number]
  rcases hw1 : esp_cam_json_key c key with ⟨e1, c1⟩
  have hs1 := key_spec c key h
  rw [hw1] at hs1
  dsimp only at hs1
  cases e1 with
  | ok =>
    dsimp only
    have hs2 := number_spec c1 value hs1.1
    exact ⟨hs2.1, by rw [hs2.2, hs1.2]⟩
  | noMem => exact hs1
  | invalidState => exact hs1

theorem key_bool_spec (c : JB) (key : List Char) (value : Bool)
    (h : BufOk c.buf c.len) :
    BufOk (esp_cam_json_key_bool c key value).2.buf
          (esp_cam_json_key_bool c key value).2.len
    ∧ (esp_cam_json_key_bool c key value).2.buf.length = c.buf.length := by
  simp only [esp_cam_json_key_bool]
  rcases hw1 : esp_cam_json_key c key with ⟨e1, c1⟩
  have hs1 := key_spec c key h
  rw [hw1] at hs1
  dsimp only at hs1
  cases e1 with
  | ok =>
    dsimp only
    have hs2 := bool_spec c1 value hs1.1
    exact ⟨hs2.1, by rw [hs2.2, hs1.2]⟩
  | noMem => exact hs1
  | invalidState => exact hs1

theorem key_null_spec (c : JB) (key : List Char) (h : BufOk c.buf c.len) :
    BufOk (esp_cam_json_key_null c key).2.buf (esp_cam_json_key_null c key).2.len
    ∧ (esp_cam_json_key_null c key).2.buf.length = c.buf.length := by
  simp only [esp_cam_json_key_null]
  rcases hw1 : esp_cam_json_key c key with ⟨e1, c1⟩
  have hs1 := key_spec c key h
  rw [hw1] at hs1
  dsimp only at hs1
  cases e1 with
  | ok =>
    dsimp only
    have hs2 := null_spec c1 hs1.1
    exact ⟨hs2.1, by rw [hs2.2, hs1.2]⟩
  | noMem => exact hs1
  | invalidState => exact hs1

/-- The full set of buffer-writing builder operations, with their
arguments. -/
inductive JsonOpFull
  | startObj
  | endObj
  | startArr
  | endArr
  | keyOp (k : List Char)
  | strOp (v : List Char)
  | numOp (v : List Char)
  | boolOp (b : Bool)
  | nullOp
  | keyStrOp (k v : List Char)
  | keyNumOp (k v : List Char)
  | keyBoolOp (k : List Char) (b : Bool)
  | keyNullOp (k : List Char)

/-- Dispatch a builder operation. -/
def runJsonOp : JsonOpFull → JB → EspErr × JB
  | .startObj, c => esp_cam_json_start_object c
  | .endObj, c => esp_cam_json_end_object c
  | .startArr, c => esp_cam_json_start_array c
  | .endArr, c => esp_cam_json_end_array c
  | .keyOp k, c => esp_cam_json_key c k
  | .strOp v, c => esp_cam_json_string c v
  | .numOp v, c => esp_cam_json_number c v
  | .boolOp b, c => esp_cam_json_bool c b
  | .nullOp, c => esp_cam_json_null c
  | .keyStrOp k v, c => esp_cam_json_key_string c k v
  | .keyNumOp k v, c => esp_cam_json_key_number c k v
  | .keyBoolOp k b, c => esp_cam_json_key_bool c k b
  | .keyNullOp k, c => esp_cam_json_key_null c k

/-- Claim C10: every builder operation preserves the buffer invariant —
if the cursor is strictly below the capacity with a null terminator at
the cursor, then after the call (success or failure) the cursor is still
strictly below the unchanged capacity with a null terminator at the
cursor; and a single write whose content would reach or exceed the
capacity is rejected with the out-of-memory error before copying. -/
theorem json_writes_preserve_buffer_invariant :
    (∀ (op : JsonOpFull) (c : JB), c.len < c.buf.length →
        c.buf.get? c.len = some '\x00' →
        (runJsonOp op c).2.len < (runJsonOp op c).2.buf.length
        ∧ (runJsonOp op c).2.buf.get? ((runJsonOp op c).2.len) = some '\x00'
        ∧ (runJsonOp op c).2.buf.length = c.buf.length)
    ∧ ∀ (buf : List Char) (len : Nat) (s : List Char),
        buf.length ≤ len + s.length →
        write_to_buffer buf len s = (.noMem, buf, len) := by
  constructor
  · intro op c h1 h2
    have h : BufOk c.buf c.len := ⟨h1, h2⟩
    cases op with
    | startObj => exact ⟨(start_object_spec c h).1.1, (start_object_spec c h).1.2,
        (start_object_spec c h).2⟩
    | endObj => exact ⟨(end_object_spec c h).1.1, (end_object_spec c h).1.2,
        (end_object_spec c h).2⟩
    | startArr => exact ⟨(start_array_spec c h).1.1, (start_array_spec c h).1.2,
        (start_array_spec c h).2⟩
    | endArr => exact ⟨(end_array_spec c h).1.1, (end_array_spec c h).1.2,
        (end_array_spec c h).2⟩
    | keyOp k => exact ⟨(key_spec c k h).1.1, (key_spec c k h).1.2,
        (key_spec c k h).2⟩
    | strOp v => exact ⟨(string_spec c v h).1.1, (string_spec c v h).1.2,
        (string_spec c v h).2⟩
    | numOp v => exact ⟨(number_spec c v h).1.1, (number_spec c v h).1.2,
        (number_spec c v h).2⟩
    | boolOp b => exact ⟨(bool_spec c b h).1.1, (bool_spec c b h).1.2,
        (bool_spec c b h).2⟩
    | nullOp => exact ⟨(null_spec c h).1.1, (null_spec c h).1.2,
        (null_spec c h).2⟩
    | keyStrOp k v => exact ⟨(key_string_spec c k v h).1.1,
        (key_string_spec c k v h).1.2, (key_string_spec c k v h).2⟩
    | keyNumOp k v => exact ⟨(key_number_spec c k v h).1.1,
        (key_number_spec c k v h).1.2, (key_number_spec c k v h).2⟩
    | keyBoolOp k b => exact ⟨(key_bool_spec c k b h).1.1,
        (key_bool_spec c k b h).1.2, (key_bool_spec c k b h).2⟩
    | keyNullOp k => exact ⟨(key_null_spec c k h).1.1,
        (key_null_spec c k h).1.2, (key_null_spec c k h).2⟩
  · intro buf len s hle
    unfold write_to_buffer
    rw [if_pos hle]

/-- Witness for `json_writes_preserve_buffer_invariant`: writing the
string `a` into a fresh 64-byte buffer, and rejecting a 70-character
write against the same capacity. -/
theorem json_writes_preserve_buffer_invariant_witness :
    (jb64.len < jb64.buf.length
     ∧ jb64.buf.get? jb64.len = some '\x00'
     ∧ 64 ≤ (0 : Nat) + (List.replicate 70 'x').length)
    ∧ ((runJsonOp (.strOp ['a']) jb64).2.len
         < (runJsonOp (.strOp ['a']) jb64).2.buf.length
       ∧ (runJsonOp (.strOp ['a']) jb64).2.buf.get?
           ((runJsonOp (.strOp ['a']) jb64).2.len) = some '\x00'
       ∧ (runJsonOp (.strOp ['a']) jb64).2.buf.length = jb64.buf.length)
    ∧ write_to_buffer jb64.buf 0 (List.replicate 70 'x')
        = (.noMem, jb64.buf, 0) :=
  ⟨⟨by decide, by decide, by decide⟩,
   json_writes_preserve_buffer_invariant.1 (.strOp ['a']) jb64
     (by decide) (by decide),
   json_writes_preserve_buffer_invariant.2 jb64.buf 0 (List.replicate 70 'x')
     (by decide)⟩
